import Mathlib

/-!
Shallow embedding of `src/qr-diskdrive.py` (the chunked framing / reassembly
protocol of the qr-diskdrive tool), together with theorems settling the
specification claims about it.

Modelling conventions:
* Python strings are `List Char`; raw file bytes are `List Nat` (values < 256).
* Fallible operations (Python exceptions: `IndexError` on `fullFile[0]`,
  `ValueError` from `str.index` / `int`, `TypeError` from writing `None`)
  are modelled with `Option`, `none` meaning the program crashes.
* The external `binaryornot.check.is_binary` heuristic (a third-party
  dependency, out of scope per the spec) is an oracle parameter `heurBinary`.
* Python `open(file, 'r').read()` is modelled faithfully: strict UTF-8
  decoding (`utf8Decode`; `none` models the uncaught `UnicodeDecodeError`
  of line 516) followed by universal-newline translation (`univNewlines`:
  `\r\n` and lone `\r` become `\n`). Writing with `open(file, 'w')` is
  the identity (POSIX: no newline translation on write).
* The interactive accept/reject prompt of `decodeQRandAppend` is modelled by
  a `Decision` value supplied by the caller.
-/

namespace QR

/-- Decimal digit character, `d ≤ 9` (helper for modelling Python `str(n)`). -/
def digitChar (d : Nat) : Char :=
  match d with
  | 0 => '0' | 1 => '1' | 2 => '2' | 3 => '3' | 4 => '4'
  | 5 => '5' | 6 => '6' | 7 => '7' | 8 => '8' | _ => '9'

/-- Fuel-indexed decimal printer; with enough fuel it is Python `str(n)`. -/
def natReprAux : Nat → Nat → List Char
  | 0, _ => []
  | fuel + 1, n =>
    if n < 10 then [digitChar n]
    else natReprAux fuel (n / 10) ++ [digitChar (n % 10)]

/-- Python `str(n)` for a natural number `n`. -/
def natRepr (n : Nat) : List Char := natReprAux (n + 1) n

/-- Is `ch` a decimal digit? -/
def isDigitCh (ch : Char) : Bool := decide (48 ≤ ch.toNat) && decide (ch.toNat ≤ 57)

/-- Numeric value of a digit string (accumulator form, as `int` computes it). -/
def digitsVal (ds : List Char) : Nat :=
  ds.foldl (fun a ch => a * 10 + (ch.toNat - 48)) 0

/-- Python `int(s)` restricted to plain digit strings, the only form the
frame protocol produces (`int` also accepts signs and whitespace; such
strings never arise from `str(index)` markers). `none` models `ValueError`. -/
def parseInt (ds : List Char) : Option Nat :=
  if ds ≠ [] ∧ ds.all isDigitCh then some (digitsVal ds) else none

/-- First index at which `pat` occurs in `s`: Python `s.index(pat)`,
with `none` modelling the `ValueError` on absence. -/
def firstOcc (pat : List Char) : List Char → Option Nat
  | [] => if pat.isPrefixOf ([] : List Char) then some 0 else none
  | ch :: t =>
    if pat.isPrefixOf (ch :: t) then some 0
    else (firstOcc pat t).map (· + 1)

/-- The standard base64 alphabet (as used by Python `base64.b64encode`). -/
def b64char (n : Nat) : Char :=
  "ABCDEFGHIJKLMNOPQRSTUVWXYZabcdefghijklmnopqrstuvwxyz0123456789+/".data.getD n 'A'

/-- Index of a character in the base64 alphabet. -/
def b64val (ch : Char) : Option Nat :=
  "ABCDEFGHIJKLMNOPQRSTUVWXYZabcdefghijklmnopqrstuvwxyz0123456789+/".data.findIdx?
    (fun c => c == ch)

/-- Python `base64.b64encode` on a byte list (RFC 4648, with `=` padding). -/
def b64e : List Nat → List Char
  | [] => []
  | [a] => [b64char (a / 4), b64char (a % 4 * 16), '=', '=']
  | [a, b] => [b64char (a / 4), b64char (a % 4 * 16 + b / 16), b64char (b % 16 * 4), '=']
  | a :: b :: c :: rest =>
    b64char (a / 4) :: b64char (a % 4 * 16 + b / 16) ::
      b64char (b % 16 * 4 + c / 64) :: b64char (c % 64) :: b64e rest

/-- Decode one base64 quad of sextets into 1–3 bytes. -/
def b64quad (w x y z : Char) : Option (List Nat) :=
  match b64val w, b64val x with
  | some s0, some s1 =>
    let byte0 := s0 * 4 + s1 / 16
    if z = '=' then
      if y = '=' then some [byte0]
      else
        match b64val y with
        | some s2 => some [byte0, s1 % 16 * 16 + s2 / 4]
        | none => none
    else
      match b64val y, b64val z with
      | some s2, some s3 => some [byte0, s1 % 16 * 16 + s2 / 4, s2 % 4 * 64 + s3]
      | _, _ => none
  | _, _ => none

/-- Python `base64.b64decode` (on well-formed input; `none` models
`binascii.Error` on malformed input). -/
def b64d : List Char → Option (List Nat)
  | [] => some []
  | w :: x :: y :: z :: rest =>
    match b64quad w x y z with
    | none => none
    | some bs =>
      if z = '=' then if rest = [] then some bs else none
      else
        match b64d rest with
        | none => none
        | some tl => some (bs ++ tl)
  | _ => none

/-- `isAscii` from the source (lines 964–968): Python returns `False` as soon
as a character has `ord(char) > 127`. Note it checks the 7-bit ASCII bound,
not the printable range. -/
def isAscii (s : List Char) : Bool := s.all (fun ch => decide (ch.toNat ≤ 127))

/-- A byte viewed as the character Python text-mode reading yields for it. -/
def byteChar (b : Nat) : Char := Char.ofNat b

/-- Universal-newline translation performed by Python text-mode reading on
the decoded text: `"\r\n"` and a lone `"\r"` both become `"\n"`. -/
def univNewlines : List Char → List Char
  | [] => []
  | [c] => if c = '\r' then ['\n'] else [c]
  | c :: c2 :: rest =>
    if c = '\r' then
      if c2 = '\n' then '\n' :: univNewlines rest
      else '\n' :: univNewlines (c2 :: rest)
    else c :: univNewlines (c2 :: rest)

/-- Is `b` a UTF-8 continuation byte (`0x80`–`0xBF`)? -/
def utf8Cont (b : Nat) : Bool := decide (128 ≤ b) && decide (b < 192)

/-- Strict UTF-8 decoding of a byte list, as Python's `utf-8` codec performs
it for `open(file, 'r').read()`: stray continuation bytes, overlong forms,
surrogates, values beyond U+10FFFF and truncated sequences are rejected
(`none`, modelling the uncaught `UnicodeDecodeError` of line 516). The
bytes `0xF5`–`0xFF` never occur in valid UTF-8. -/
def utf8Decode : List Nat → Option (List Char)
  | [] => some []
  | b :: rest =>
    if b < 128 then (utf8Decode rest).map (fun s => byteChar b :: s)
    else if b < 194 then none
    else if b < 224 then
      match rest with
      | b2 :: rest2 =>
        if utf8Cont b2 then
          (utf8Decode rest2).map (fun s => Char.ofNat ((b - 192) * 64 + (b2 - 128)) :: s)
        else none
      | [] => none
    else if b < 240 then
      match rest with
      | b2 :: b3 :: rest2 =>
        if utf8Cont b2 && utf8Cont b3 && !(decide (b = 224) && decide (b2 < 160))
            && !(decide (b = 237) && decide (160 ≤ b2)) then
          (utf8Decode rest2).map
            (fun s => Char.ofNat ((b - 224) * 4096 + (b2 - 128) * 64 + (b3 - 128)) :: s)
        else none
      | _ => none
    else if b < 245 then
      match rest with
      | b2 :: b3 :: b4 :: rest2 =>
        if utf8Cont b2 && utf8Cont b3 && utf8Cont b4 && !(decide (b = 240) && decide (b2 < 144))
            && !(decide (b = 244) && decide (144 ≤ b2)) then
          (utf8Decode rest2).map (fun s =>
            Char.ofNat ((b - 240) * 262144 + (b2 - 128) * 4096 + (b3 - 128) * 64 + (b4 - 128)) :: s)
        else none
      | _ => none
    else none

/-- Python text-mode reading of the file's bytes (lines 515–516): strict
UTF-8 decoding (`none` = the uncaught `UnicodeDecodeError`) followed by
universal-newline translation. -/
def textRead (content : List Nat) : Option (List Char) :=
  (utf8Decode content).map univNewlines

/-- The binary/text classification of `getAndSplitFile` (lines 510–524):
binary when the external `is_binary` heuristic fires; otherwise the file is
read in text mode — which may crash (`none`) — and the content is binary
exactly when `isAscii` fails on the decoded, newline-translated text. -/
def classifyBinary (heurBinary : Bool) (content : List Nat) : Option Bool :=
  if heurBinary then some true
  else (textRead content).map (fun s => !isAscii s)

/-- The text-safe stream that gets sliced into frames: base64 of the raw
bytes on the binary path (line 536), the decoded newline-translated text on
the text path (line 533); `none` when the text read crashes. -/
def encStream (heurBinary : Bool) (content : List Nat) : Option (List Char) :=
  if heurBinary then some (b64e content)
  else (textRead content).map (fun s => if isAscii s then s else b64e content)

/-- The per-frame index marker `'::c' + str(index) + '::'` (line 553). -/
def mark (index : Nat) : List Char := "::c".data ++ natRepr index ++ "::".data

/-- The frame-0 header prefix (lines 538–544):
`['b64:'] [':z:'] '::f::' basename '::/f::'` (the `:z:` flag is only ever
emitted on the binary path, mirroring the source's nesting). -/
def hdrChars (isBin zipFirst : Bool) (name : List Char) : List Char :=
  (if isBin then "b64:".data ++ (if zipFirst then ":z:".data else []) else []) ++
    "::f::".data ++ name ++ "::/f::".data

/-- The character-accumulation loop of `getAndSplitFile` (lines 546–561):
append one character to the buffer; when the buffer length hits `chunkSize`
exactly, emit it and start the next buffer with the next index marker; after
the loop a nonempty leftover buffer is emitted as the final frame. -/
def splitLoop (chunkSize : Nat) : List Char → List Char → Nat → List (List Char)
  | [], buffer, _ => if buffer = [] then [] else [buffer]
  | ch :: rest, buffer, index =>
    if (buffer ++ [ch]).length = chunkSize then
      (buffer ++ [ch]) :: splitLoop chunkSize rest (mark (index + 1)) (index + 1)
    else
      splitLoop chunkSize rest (buffer ++ [ch]) index

/-- The slicing stage of `getAndSplitFile` (lines 527–561) applied to an
already-transformed stream: crash (`none`, the `IndexError` of
`byte = fullFile[0]` at line 546) when the stream is empty, else the frame
list produced by the accumulation loop started on the header buffer. -/
def buildFrames (isBin zipFirst : Bool) (fullFile : List Char) (chunkSize : Nat)
    (name : List Char) : Option (List (List Char)) :=
  if fullFile = [] then none
  else some (splitLoop chunkSize fullFile (hdrChars isBin zipFirst name ++ mark 0) 0)

/-- `getAndSplitFile` (lines 492–565), file I/O abstracted to the byte list
`content` and the embedded basename `name`: classify (lines 510–524; the
text-mode read may crash with `UnicodeDecodeError`), transform (base64 of
the raw bytes for binary, the decoded newline-translated text otherwise),
then slice into frames. -/
def getAndSplitFile (heurBinary zipFirst : Bool) (content : List Nat)
    (chunkSize : Nat) (name : List Char) : Option (List (List Char)) :=
  if heurBinary then buildFrames true zipFirst (b64e content) chunkSize name
  else
    match textRead content with
    | none => none
    | some s =>
      if isAscii s then buildFrames false zipFirst s chunkSize name
      else buildFrames true zipFirst (b64e content) chunkSize name

/-- QR error-correction level (L / M / H, as accepted by the `-e` flag). -/
inductive ECLevel
  | L
  | M
  | H
deriving DecidableEq, Repr

/-- The capacity clamping of `validateUserInput` (lines 1008–1015): level H
clamps `CHUNK_SIZE` to 1273, level M to 2331, and any remaining value above
2953 is clamped to 2953. (`setDefaults`, lines 266–276, performs the same
M/H clamps earlier; the composition equals this function.) -/
def validateUserInput (level : ECLevel) (chunkSize : Nat) : Nat :=
  let c1 := if level = ECLevel.H ∧ chunkSize > 1273 then 1273 else chunkSize
  let c2 := if level = ECLevel.M ∧ c1 > 2331 then 2331 else c1
  if c2 > 2953 then 2953 else c2

/-- Per-level threshold modifier of `getVersionFromChunk`, scaled by 20 so it
is exact: the source multiplies thresholds by the float `0.4` (H), `0.75`
(M) or `1` (L); here we compare `20 * chunk ≤ threshold * modifier20`.
This is equivalent to the source's float comparison: `0.75` and `1` are
exact binary floats, and for `0.4` the only scaled threshold with integral
exact value is `520 * 0.4 = 208`, whose float value `208.00000000000003`
lies in `[208, 209)`, so every integer comparison agrees. -/
def modifier20 : ECLevel → Nat
  | ECLevel.H => 8
  | ECLevel.M => 15
  | ECLevel.L => 20

/-- `getVersionFromChunk` (lines 939–961): the QR version tier for a chunk
size, stepping up through the scaled threshold ladder. -/
def getVersionFromChunk (level : ECLevel) (chunk : Nat) : Nat :=
  if 20 * chunk ≤ 106 * modifier20 level then 5
  else if 20 * chunk ≤ 271 * modifier20 level then 10
  else if 20 * chunk ≤ 520 * modifier20 level then 15
  else if 20 * chunk ≤ 858 * modifier20 level then 20
  else if 20 * chunk ≤ 1273 * modifier20 level then 25
  else if 20 * chunk ≤ 1732 * modifier20 level then 30
  else if 20 * chunk ≤ 2303 * modifier20 level then 35
  else 40

/-- The tier ladder of the spec: (version, threshold) pairs in ascending
order. Stated from the spec's words for comparison with the source. -/
def tierLadder : List (Nat × Nat) :=
  [(5, 106), (10, 271), (15, 520), (20, 858), (25, 1273), (30, 1732), (35, 2303), (40, 2953)]

/-- Modelled from the spec: "pick the smallest tier whose threshold (after
scaling) is ≥ the capacity; if none qualifies, use the maximum tier (40)". -/
def specVersionFromChunk (level : ECLevel) (chunk : Nat) : Nat :=
  match tierLadder.find? (fun p => decide (20 * chunk ≤ p.2 * modifier20 level)) with
  | some p => p.1
  | none => 40

/-- Modelled from the spec: the per-level capacity ceiling ("Low → 2953,
Medium → 2331, High → 1273"). -/
def ceilingFor : ECLevel → Nat
  | ECLevel.L => 2953
  | ECLevel.M => 2331
  | ECLevel.H => 1273

/-- Modelled from the spec: a byte in the printable-ASCII range. -/
def isPrintableByte (b : Nat) : Prop := 32 ≤ b ∧ b ≤ 126

/-- The decode-side state: the `qrCodeOutput` object of the source (lines
99–103) plus the `ZIP_DECODE` global (line 64) folded in as a field.
`outFileName = none` models Python `None`; `finalOutputString = none` is
both the initial sentinel and the rejection marker set at line 906. -/
structure QrOut where
  isBinaryFile : Bool
  outFileName : Option (List Char)
  finalOutputString : Option (List Char)
  zipDecode : Bool
deriving DecidableEq, Repr

/-- Python `os.path.splitext(name)[1]` (`getextension`, lines 991–993):
the suffix from the last dot, except that a basename consisting of leading
dots up to that point has no extension. -/
def getextension (name : List Char) : List Char :=
  match (name.reverse.findIdx? (fun c => c == '.')).map
      (fun r => name.length - 1 - r) with
  | none => []
  | some i => if (name.take i).all (fun c => c == '.') then [] else name.drop i

/-- The caller's answer at the interactive accept/rescan prompt
(line 904): `A` or `R`. -/
inductive Decision
  | accept
  | reject
deriving DecidableEq, Repr

/-- Lines 865–868: strip a leading `'b64:'` tag on frame 0 and set the
binary flag. -/
def stageB64 (out : QrOut) (index : Nat) (data : List Char) : QrOut × List Char :=
  if index = 0 ∧ "b64:".data.isPrefixOf data then
    ({ out with isBinaryFile := true }, data.drop 4)
  else (out, data)

/-- Lines 869–872: strip a leading `':z:'` tag on frame 0 and set the
zip-decode flag. -/
def stageZip (out : QrOut) (index : Nat) (data : List Char) : QrOut × List Char :=
  if index = 0 ∧ ":z:".data.isPrefixOf data then
    ({ out with zipDecode := true }, data.drop 3)
  else (out, data)

/-- Lines 873–884: on frame 0, strip a `'::f::' … '::/f::'` filename block,
adopting the embedded name when no output name was preset and otherwise
appending only its extension to the preset name. `none` models the
`ValueError` of `data.index('::/f::')` when the closing tag is absent. -/
def stageFname (out : QrOut) (index : Nat) (data : List Char) :
    Option (QrOut × List Char) :=
  if index = 0 then
    if "::f::".data.isPrefixOf data then
      let d1 := data.drop 5
      match firstOcc "::/f::".data d1 with
      | none => none
      | some i =>
        let extracted := d1.take i
        let out1 :=
          match out.outFileName with
          | none => { out with outFileName := some extracted }
          | some n =>
            if n = [] then { out with outFileName := some extracted }
            else { out with outFileName := some (n ++ getextension extracted) }
        some (out1, (d1.drop extracted.length).drop 6)
    else some (out, data)
  else some (out, data)

/-- Lines 885–896: parse a leading `'::c' digits '::'` marker. Returns
`(noCount, count, remaining)`; when the marker is present the remaining data
drops `len(str(count)) + 2` characters past the digits, exactly as the
source does. `none` models the `ValueError` of `data.index('::')` or of
`int(...)`. -/
def stageCount (data : List Char) : Option (Bool × Nat × List Char) :=
  if "::c".data.isPrefixOf data then
    let d1 := data.drop 3
    match firstOcc "::".data d1 with
    | none => none
    | some j =>
      match parseInt (d1.take j) with
      | none => none
      | some count => some (false, count, d1.drop ((natRepr count).length + 2))
  else some (true, 0, data)

/-- `decodeQRandAppend` (lines 857–909). The initial `None → ''` reset of
line 860 is performed first; the decision parameter is consulted exactly
when `(countMatch == False or noCount == True) and fromCamera`; rejection
sets `finalOutputString` to `None` (line 906) on the state object — which
Python shares with the caller — and otherwise the remaining payload is
appended. -/
def decodeQRandAppend (data : List Char) (out : QrOut) (index : Nat)
    (fromCamera : Bool) (decision : Decision) : Option QrOut :=
  let out0 := { out with finalOutputString := some (out.finalOutputString.getD []) }
  let s1 := stageB64 out0 index data
  let s2 := stageZip s1.1 index s1.2
  match stageFname s2.1 index s2.2 with
  | none => none
  | some (out3, d3) =>
    match stageCount d3 with
    | none => none
    | some (noCount, count, d4) =>
      let countMatch : Bool := if noCount then true else decide (count = index)
      if (!countMatch || noCount) && fromCamera then
        match decision with
        | Decision.reject => some { out3 with finalOutputString := none }
        | Decision.accept =>
          some { out3 with
                 finalOutputString := some ((out3.finalOutputString.getD []) ++ d4) }
      else
        some { out3 with
               finalOutputString := some ((out3.finalOutputString.getD []) ++ d4) }

/-- `writeOutputFile` (lines 912–929): base64-decode the collected payload
when binary, default an empty output name to `unknownfile.txt`, and append
`.zip` when the zip flag was seen. `none` models the crashes on a `None`
payload or a `None` filename. The returned pair is (bytes written, file
name written to). -/
def writeOutputFile (out : QrOut) : Option (List Nat × List Char) :=
  match out.finalOutputString with
  | none => none
  | some s =>
    match (if out.isBinaryFile then b64d s else some (s.map Char.toNat)) with
    | none => none
    | some content =>
      match out.outFileName with
      | none => none
      | some n =>
        let n1 := if n = [] then "unknownfile.txt".data else n
        some (content, if out.zipDecode then n1 ++ ".zip".data else n1)

/-- The enumerated-source loop of `readFromPNG` (lines 841–852): frames are
decoded in filename-index order with `fromCamera = False` (so the
accept/reject decision point is never consulted). -/
def readFromPNGloop (frames : List (List Char)) (out : QrOut) (index : Nat) :
    Option QrOut :=
  match frames with
  | [] => some out
  | f :: fs =>
    match decodeQRandAppend f out index false Decision.accept with
    | none => none
    | some out1 => readFromPNGloop fs out1 (index + 1)

/-- `readFromPNG` (lines 835–853): a missing index-0 frame is fatal
(`exit(1)`); otherwise decode all frames in order and materialize the
output. -/
def readFromPNG (frames : List (List Char)) (preset : Option (List Char)) :
    Option (List Nat × List Char) :=
  match frames with
  | [] => none
  | _ :: _ =>
    match readFromPNGloop frames (QrOut.mk false preset (some []) false) 0 with
    | none => none
    | some out => writeOutputFile out

/-- The live-capture loop of `readFromCamera` (lines 795–831): each event is
a scanned frame together with the operator's decision at the prompt (the
decision is only consulted on a mismatch / missing count). The arrival
position advances only when the frame was not rejected; the state object is
shared with `decodeQRandAppend` (Python mutates it in place and returns it),
so a rejection leaves the caller holding the state whose
`finalOutputString` is `None`. -/
def readFromCameraLoop (events : List (List Char × Decision)) (out : QrOut)
    (index : Nat) : Option QrOut :=
  match events with
  | [] => some out
  | (f, d) :: es =>
    match decodeQRandAppend f out index true d with
    | none => none
    | some out1 =>
      readFromCameraLoop es out1
        (if out1.finalOutputString.isSome then index + 1 else index)

/-- A full camera decode session starting from the fresh state
`qrCodeOutput(False, preset, '')` of line 793. -/
def readFromCamera (events : List (List Char × Decision))
    (preset : Option (List Char)) : Option QrOut :=
  readFromCameraLoop events (QrOut.mk false preset (some []) false) 0

/-- The end-to-end pipeline settled by the round-trip claim: encode `content`
under basename `name` at the given chunk size, then decode the produced
frames in order from an enumerated source with no preset output name. -/
def encodeDecode (heurBinary : Bool) (content : List Nat) (name : List Char)
    (chunkSize : Nat) : Option (List Nat × List Char) :=
  match getAndSplitFile heurBinary false content chunkSize name with
  | none => none
  | some frames => readFromPNG frames none

end QR

namespace QR

/-! ### Helper lemmas: decimal printing and parsing -/

theorem natReprAux_irrel : ∀ f1 : Nat, ∀ f2 n : Nat, n < f1 → n < f2 →
    natReprAux f1 n = natReprAux f2 n := by
  intro f1
  induction f1 with
  | zero => intro f2 n h1 _; omega
  | succ f1 ih =>
    intro f2 n h1 h2
    cases f2 with
    | zero => omega
    | succ f2 =>
      by_cases h : n < 10
      · simp [natReprAux, h]
      · have hdiv : n / 10 < n := Nat.div_lt_self (by omega) (by omega)
        simp only [natReprAux, if_neg h]
        rw [ih f2 (n / 10) (by omega) (by omega)]

theorem natRepr_lt10 (n : Nat) (h : n < 10) : natRepr n = [digitChar n] := by
  simp [natRepr, natReprAux, h]

theorem natRepr_ge10 (n : Nat) (h : 10 ≤ n) :
    natRepr n = natRepr (n / 10) ++ [digitChar (n % 10)] := by
  have hdiv : n / 10 < n := Nat.div_lt_self (by omega) (by omega)
  unfold natRepr
  rw [natReprAux, if_neg (by omega)]
  rw [natReprAux_irrel n (n / 10 + 1) (n / 10) (by omega) (by omega)]

theorem digitChar_toNat (d : Nat) (h : d < 10) : (digitChar d).toNat = 48 + d := by
  interval_cases d <;> rfl

theorem natRepr_digits (n : Nat) : ∀ ch ∈ natRepr n, isDigitCh ch = true := by
  induction n using Nat.strong_induction_on with
  | _ n ih =>
    by_cases h : n < 10
    · rw [natRepr_lt10 n h]
      intro ch hch
      simp at hch
      subst hch
      simp [isDigitCh, digitChar_toNat n h]
      omega
    · rw [natRepr_ge10 n (by omega)]
      intro ch hch
      rw [List.mem_append] at hch
      rcases hch with hch | hch
      · exact ih (n / 10) (Nat.div_lt_self (by omega) (by omega)) ch hch
      · simp at hch
        subst hch
        have : n % 10 < 10 := Nat.mod_lt _ (by omega)
        simp [isDigitCh, digitChar_toNat _ this]
        omega

theorem natRepr_ne_nil (n : Nat) : natRepr n ≠ [] := by
  by_cases h : n < 10
  · simp [natRepr_lt10 n h]
  · simp [natRepr_ge10 n (by omega)]

theorem digitsVal_natRepr (n : Nat) : digitsVal (natRepr n) = n := by
  induction n using Nat.strong_induction_on with
  | _ n ih =>
    by_cases h : n < 10
    · rw [natRepr_lt10 n h]
      simp [digitsVal, digitChar_toNat n h]
    · rw [natRepr_ge10 n (by omega)]
      have hdiv : n / 10 < n := Nat.div_lt_self (by omega) (by omega)
      have hmod : n % 10 < 10 := Nat.mod_lt _ (by omega)
      simp only [digitsVal, List.foldl_append, List.foldl_cons, List.foldl_nil]
      have hrec : (natRepr (n / 10)).foldl (fun a ch => a * 10 + (ch.toNat - 48)) 0 = n / 10 :=
        ih (n / 10) hdiv
      rw [hrec, digitChar_toNat _ hmod]
      omega

theorem parseInt_natRepr (n : Nat) : parseInt (natRepr n) = some n := by
  rw [parseInt, if_pos ⟨natRepr_ne_nil n, by
    rw [List.all_eq_true]; exact natRepr_digits n⟩]
  rw [digitsVal_natRepr]

theorem digit_ne_colon (ch : Char) (h : isDigitCh ch = true) : ¬(ch = ':') := by
  intro heq
  subst heq
  simp [isDigitCh] at h

/-! ### Helper lemmas: bytes as characters -/

theorem byteChar_toNat (b : Nat) (h : b < 256) : (byteChar b).toNat = b := by
  have hv : Nat.isValidChar b := Or.inl (by omega)
  simp [byteChar, Char.ofNat, hv, Char.ofNatAux, Char.toNat, UInt32.toNat,
    BitVec.toNat_ofNatLt]

/-! ### Helper lemmas: base64 round trip -/

theorem b64val_b64char : ∀ n < 64, b64val (b64char n) = some n := by decide

theorem b64char_ne_pad : ∀ n < 64, ¬(b64char n = '=') := by decide

theorem b64_roundtrip : ∀ bs : List Nat, (∀ x ∈ bs, x < 256) → b64d (b64e bs) = some bs := by
  intro bs
  induction bs using b64e.induct with
  | case1 => intro _; rfl
  | case2 a =>
    intro h
    have ha : a < 256 := h a (by simp)
    have e1 : b64val (b64char (a / 4)) = some (a / 4) := b64val_b64char _ (by omega)
    have e2 : b64val (b64char (a % 4 * 16)) = some (a % 4 * 16) := b64val_b64char _ (by omega)
    rw [b64e, b64d]
    simp [b64quad, e1, e2]
    omega
  | case3 a b =>
    intro h
    have ha : a < 256 := h a (by simp)
    have hb : b < 256 := h b (by simp)
    have e1 : b64val (b64char (a / 4)) = some (a / 4) := b64val_b64char _ (by omega)
    have e2 : b64val (b64char (a % 4 * 16 + b / 16)) = some (a % 4 * 16 + b / 16) :=
      b64val_b64char _ (by omega)
    have e3 : b64val (b64char (b % 16 * 4)) = some (b % 16 * 4) :=
      b64val_b64char _ (by omega)
    have hy : ¬(b64char (b % 16 * 4) = '=') := b64char_ne_pad _ (by omega)
    rw [b64e, b64d]
    simp [b64quad, e1, e2, e3, hy]
    omega
  | case4 a b c rest ih =>
    intro h
    have ha : a < 256 := h a (by simp)
    have hb : b < 256 := h b (by simp)
    have hc : c < 256 := h c (by simp)
    have hrest : ∀ x ∈ rest, x < 256 := by
      intro x hx; exact h x (by simp [hx])
    have e1 : b64val (b64char (a / 4)) = some (a / 4) := b64val_b64char _ (by omega)
    have e2 : b64val (b64char (a % 4 * 16 + b / 16)) = some (a % 4 * 16 + b / 16) :=
      b64val_b64char _ (by omega)
    have e3 : b64val (b64char (b % 16 * 4 + c / 64)) = some (b % 16 * 4 + c / 64) :=
      b64val_b64char _ (by omega)
    have e4 : b64val (b64char (c % 64)) = some (c % 64) := b64val_b64char _ (by omega)
    have hz : ¬(b64char (c % 64) = '=') := b64char_ne_pad _ (by omega)
    rw [b64e, b64d]
    simp [b64quad, e1, e2, e3, e4, hz, ih hrest]
    omega

end QR

namespace QR

/-! ### Helper lemmas: first-occurrence search -/

theorem firstOcc_digits (chunk : List Char) :
    ∀ ds : List Char, (∀ ch ∈ ds, isDigitCh ch = true) →
      firstOcc [':', ':'] (ds ++ ':' :: ':' :: chunk) = some ds.length := by
  intro ds
  induction ds with
  | nil =>
    intro _
    have hp : ([':', ':'] : List Char).isPrefixOf (':' :: ':' :: chunk) = true := by
      simp [List.isPrefixOf]
    simp [firstOcc, hp]
  | cons c ds ih =>
    intro h
    have hc : isDigitCh c = true := h c (by simp)
    have hne : ¬((':' : Char) = c) := fun heq => digit_ne_colon c hc heq.symm
    have hb : ((':' : Char) == c) = false := beq_eq_false_iff_ne.mpr hne
    have hp : ([':', ':'] : List Char).isPrefixOf (c :: (ds ++ ':' :: ':' :: chunk)) = false := by
      show ((':' : Char) == c && List.isPrefixOf [':'] (ds ++ ':' :: ':' :: chunk)) = false
      rw [hb]
      rfl
    rw [List.cons_append, firstOcc, if_neg (by simp [hp]), ih (fun x hx => h x (by simp [hx]))]
    rfl

theorem firstOcc_fname (rest : List Char) :
    ∀ N : List Char, '/' ∉ N →
      firstOcc [':', ':', '/', 'f', ':', ':'] (N ++ ':' :: ':' :: '/' :: 'f' :: ':' :: ':' :: rest)
        = some N.length := by
  intro N
  induction N with
  | nil =>
    intro _
    have hp : ([':', ':', '/', 'f', ':', ':'] : List Char).isPrefixOf
        (':' :: ':' :: '/' :: 'f' :: ':' :: ':' :: rest) = true := by
      simp [List.isPrefixOf]
    simp [firstOcc, hp]
  | cons c N ih =>
    intro hN
    have hN' : '/' ∉ N := fun hx => hN (by simp [hx])
    have hp : ([':', ':', '/', 'f', ':', ':'] : List Char).isPrefixOf
        (c :: (N ++ ':' :: ':' :: '/' :: 'f' :: ':' :: ':' :: rest)) = false := by
      match N with
      | [] =>
        show ((':' : Char) == c &&
          List.isPrefixOf [':', '/', 'f', ':', ':'] (':' :: ':' :: '/' :: 'f' :: ':' :: ':' :: rest)) = false
        have h2 : List.isPrefixOf ([':', '/', 'f', ':', ':'] : List Char)
            (':' :: ':' :: '/' :: 'f' :: ':' :: ':' :: rest) = false := rfl
        rw [h2, Bool.and_false]
      | [b] =>
        show ((':' : Char) == c &&
          List.isPrefixOf [':', '/', 'f', ':', ':'] (b :: ':' :: ':' :: '/' :: 'f' :: ':' :: ':' :: rest)) = false
        have h2 : List.isPrefixOf ([':', '/', 'f', ':', ':'] : List Char)
            (b :: ':' :: ':' :: '/' :: 'f' :: ':' :: ':' :: rest)
            = ((':' : Char) == b && false) := rfl
        rw [h2, Bool.and_false, Bool.and_false]
      | b :: cc :: t =>
        have hcc : ¬(('/' : Char) = cc) := by
          intro heq
          exact hN' (by simp [← heq])
        have hbcc : (('/' : Char) == cc) = false := beq_eq_false_iff_ne.mpr hcc
        show ((':' : Char) == c && ((':' : Char) == b && (('/' : Char) == cc &&
          List.isPrefixOf ['f', ':', ':'] (t ++ ':' :: ':' :: '/' :: 'f' :: ':' :: ':' :: rest)))) = false
        rw [hbcc]
        simp
    rw [List.cons_append, firstOcc, if_neg (by simp [hp]), ih hN']
    rfl

/-! ### Helper lemmas: skipping absent frame-0 tags -/

theorem stageB64_skip {out : QrOut} {idx : Nat} {data : List Char}
    (h : ("b64:".data.isPrefixOf data) = false) : stageB64 out idx data = (out, data) := by
  simp [stageB64, h]

theorem stageZip_skip {out : QrOut} {idx : Nat} {data : List Char}
    (h : (":z:".data.isPrefixOf data) = false) : stageZip out idx data = (out, data) := by
  simp [stageZip, h]

theorem stageFname_skip {out : QrOut} {idx : Nat} {data : List Char}
    (h : ("::f::".data.isPrefixOf data) = false) : stageFname out idx data = some (out, data) := by
  by_cases hi : idx = 0 <;> simp [stageFname, h, hi]

/-! ### Helper lemmas: decoding a single frame -/

theorem stageCount_mark (cnt : Nat) (chunk : List Char) :
    stageCount (mark cnt ++ chunk) = some (false, cnt, chunk) := by
  have hshape : mark cnt ++ chunk = ':' :: ':' :: 'c' :: (natRepr cnt ++ ':' :: ':' :: chunk) := by
    simp [mark]
  have hp : ("::c".data.isPrefixOf (':' :: ':' :: 'c' :: (natRepr cnt ++ ':' :: ':' :: chunk)))
      = true := by simp [List.isPrefixOf]
  have hocc : firstOcc "::".data (natRepr cnt ++ ':' :: ':' :: chunk)
      = some (natRepr cnt).length := firstOcc_digits chunk (natRepr cnt) (natRepr_digits cnt)
  have htake : (natRepr cnt ++ ':' :: ':' :: chunk).take (natRepr cnt).length = natRepr cnt :=
    List.take_left _ _
  have hdrop2 : (natRepr cnt ++ ':' :: ':' :: chunk).drop ((natRepr cnt).length + 2) = chunk := by
    have h3 : natRepr cnt ++ ':' :: ':' :: chunk = (natRepr cnt ++ [':', ':']) ++ chunk := by simp
    have hlen : (natRepr cnt ++ [':', ':']).length = (natRepr cnt).length + 2 := by simp
    rw [h3, ← hlen]
    exact List.drop_left _ _
  rw [hshape, stageCount, if_pos hp]
  simp only [List.drop_succ_cons, List.drop_zero, hocc, htake, parseInt_natRepr, hdrop2]

theorem decode_markerFrame (cnt idx : Nat) (chunk : List Char) (st : QrOut)
    (acc : List Char) (d : Decision) (h : st.finalOutputString = some acc) :
    decodeQRandAppend (mark cnt ++ chunk) st idx false d
      = some { st with finalOutputString := some (acc ++ chunk) } := by
  have hshape : mark cnt ++ chunk = ':' :: ':' :: 'c' :: (natRepr cnt ++ ':' :: ':' :: chunk) := by
    simp [mark]
  have hb64 : ("b64:".data.isPrefixOf (mark cnt ++ chunk)) = false := by rw [hshape]; rfl
  have hzip : ((":z:".data).isPrefixOf (mark cnt ++ chunk)) = false := by rw [hshape]; rfl
  have hfn : (("::f::".data).isPrefixOf (mark cnt ++ chunk)) = false := by rw [hshape]; rfl
  simp only [decodeQRandAppend, stageB64_skip hb64, stageZip_skip hzip, stageFname_skip hfn,
    stageCount_mark, h, Option.getD_some]
  simp

end QR

namespace QR

theorem stageFname_hdr (out : QrOut) (N tail : List Char) (hN : '/' ∉ N)
    (hfile : out.outFileName = none) :
    stageFname out 0 (':' :: ':' :: 'f' :: ':' :: ':' ::
        (N ++ ':' :: ':' :: '/' :: 'f' :: ':' :: ':' :: tail))
      = some ({ out with outFileName := some N }, tail) := by
  have hp : ("::f::".data.isPrefixOf (':' :: ':' :: 'f' :: ':' :: ':' ::
      (N ++ ':' :: ':' :: '/' :: 'f' :: ':' :: ':' :: tail))) = true := by
    simp [List.isPrefixOf]
  have hocc : firstOcc "::/f::".data (N ++ ':' :: ':' :: '/' :: 'f' :: ':' :: ':' :: tail)
      = some N.length := firstOcc_fname tail N hN
  have htake : (N ++ ':' :: ':' :: '/' :: 'f' :: ':' :: ':' :: tail).take N.length = N :=
    List.take_left _ _
  have hdrop : (N ++ ':' :: ':' :: '/' :: 'f' :: ':' :: ':' :: tail).drop N.length
      = ':' :: ':' :: '/' :: 'f' :: ':' :: ':' :: tail := List.drop_left _ _
  rw [stageFname, if_pos rfl, if_pos hp]
  simp only [List.drop_succ_cons, List.drop_zero, hocc, htake, hfile, hdrop]

theorem decode_headerFrame (b z : Bool) (N chunk : List Char) (st : QrOut)
    (acc : List Char) (d : Decision) (hN : '/' ∉ N)
    (hbin : st.isBinaryFile = false) (hzip0 : st.zipDecode = false)
    (hfile : st.outFileName = none) (hfos : st.finalOutputString = some acc) :
    decodeQRandAppend (hdrChars b z N ++ (mark 0 ++ chunk)) st 0 false d
      = some (QrOut.mk b (some N) (some (acc ++ chunk)) (b && z)) := by
  obtain ⟨b0, f0, s0, z0⟩ := st
  simp only at hbin hzip0 hfile hfos
  subst hbin hzip0 hfile hfos
  have hmk : stageCount (mark 0 ++ chunk) = some (false, 0, chunk) := stageCount_mark 0 chunk
  cases b with
  | false =>
    have hshape : hdrChars false z N ++ (mark 0 ++ chunk)
        = ':' :: ':' :: 'f' :: ':' :: ':' ::
            (N ++ ':' :: ':' :: '/' :: 'f' :: ':' :: ':' :: (mark 0 ++ chunk)) := by
      simp [hdrChars, mark]
    have hb64 : ("b64:".data.isPrefixOf (hdrChars false z N ++ (mark 0 ++ chunk))) = false := by
      rw [hshape]; rfl
    have hzp : ((":z:".data).isPrefixOf (hdrChars false z N ++ (mark 0 ++ chunk))) = false := by
      rw [hshape]; rfl
    simp only [decodeQRandAppend, stageB64_skip hb64, stageZip_skip hzp, Option.getD_some]
    rw [hshape, stageFname_hdr _ N (mark 0 ++ chunk) hN rfl]
    simp only [hmk]
    simp
  | true =>
    cases z with
    | false =>
      have hshape : hdrChars true false N ++ (mark 0 ++ chunk)
          = 'b' :: '6' :: '4' :: ':' :: (':' :: ':' :: 'f' :: ':' :: ':' ::
              (N ++ ':' :: ':' :: '/' :: 'f' :: ':' :: ':' :: (mark 0 ++ chunk))) := by
        simp [hdrChars, mark]
      have hb64 : ("b64:".data.isPrefixOf ('b' :: '6' :: '4' :: ':' :: (':' :: ':' :: 'f' :: ':' :: ':' ::
          (N ++ ':' :: ':' :: '/' :: 'f' :: ':' :: ':' :: (mark 0 ++ chunk))))) = true := by
        simp [List.isPrefixOf]
      have hzp : ((":z:".data).isPrefixOf ((':' :: ':' :: 'f' :: ':' :: ':' ::
          (N ++ ':' :: ':' :: '/' :: 'f' :: ':' :: ':' :: (mark 0 ++ chunk))) : List Char)) = false := rfl
      rw [hshape]
      simp only [decodeQRandAppend, Option.getD_some]
      rw [stageB64, if_pos ⟨rfl, hb64⟩]
      simp only [List.drop_succ_cons, List.drop_zero]
      rw [stageZip_skip hzp]
      rw [stageFname_hdr _ N (mark 0 ++ chunk) hN rfl]
      simp only [hmk]
      simp
    | true =>
      have hshape : hdrChars true true N ++ (mark 0 ++ chunk)
          = 'b' :: '6' :: '4' :: ':' :: (':' :: 'z' :: ':' :: (':' :: ':' :: 'f' :: ':' :: ':' ::
              (N ++ ':' :: ':' :: '/' :: 'f' :: ':' :: ':' :: (mark 0 ++ chunk)))) := by
        simp [hdrChars, mark]
      have hb64 : ("b64:".data.isPrefixOf ('b' :: '6' :: '4' :: ':' :: (':' :: 'z' :: ':' ::
          (':' :: ':' :: 'f' :: ':' :: ':' ::
          (N ++ ':' :: ':' :: '/' :: 'f' :: ':' :: ':' :: (mark 0 ++ chunk)))))) = true := by
        simp [List.isPrefixOf]
      have hzp : ((":z:".data).isPrefixOf ((':' :: 'z' :: ':' :: (':' :: ':' :: 'f' :: ':' :: ':' ::
          (N ++ ':' :: ':' :: '/' :: 'f' :: ':' :: ':' :: (mark 0 ++ chunk)))) : List Char)) = true := by
        simp [List.isPrefixOf]
      rw [hshape]
      simp only [decodeQRandAppend, Option.getD_some]
      rw [stageB64, if_pos ⟨rfl, hb64⟩]
      simp only [List.drop_succ_cons, List.drop_zero]
      rw [stageZip, if_pos ⟨rfl, hzp⟩]
      simp only [List.drop_succ_cons, List.drop_zero]
      rw [stageFname_hdr _ N (mark 0 ++ chunk) hN rfl]
      simp only [hmk]
      simp

end QR

namespace QR

/-! ### Helper lemmas: the slicing loop against the enumerated decode loop -/

theorem mark_ne_nil (i : Nat) : mark i ≠ [] := by simp [mark]

theorem splitLoop_ne_nil (c : Nat) :
    ∀ rest buffer : List Char, ∀ i : Nat, buffer ≠ [] → splitLoop c rest buffer i ≠ [] := by
  intro rest
  induction rest with
  | nil =>
    intro buffer i hb
    rw [splitLoop, if_neg hb]
    simp
  | cons ch rest ih =>
    intro buffer i hb
    rw [splitLoop]
    by_cases hfill : (buffer ++ [ch]).length = c
    · rw [if_pos hfill]
      simp
    · rw [if_neg hfill]
      exact ih (buffer ++ [ch]) i (by simp)

theorem pngLoop_splitLoop (c : Nat) (rest : List Char) :
    ∀ partChunk : List Char, ∀ i : Nat, ∀ st : QrOut, ∀ acc : List Char,
      st.finalOutputString = some acc →
      readFromPNGloop (splitLoop c rest (mark i ++ partChunk) i) st i
        = some { st with finalOutputString := some (acc ++ (partChunk ++ rest)) } := by
  induction rest with
  | nil =>
    intro partChunk i st acc h
    rw [splitLoop, if_neg (by simp [mark_ne_nil i] : ¬(mark i ++ partChunk = []))]
    simp only [readFromPNGloop, decode_markerFrame i i partChunk st acc Decision.accept h]
    simp
  | cons ch rest ih =>
    intro partChunk i st acc h
    rw [splitLoop]
    by_cases hfill : ((mark i ++ partChunk) ++ [ch]).length = c
    · rw [if_pos hfill]
      have hassoc : (mark i ++ partChunk) ++ [ch] = mark i ++ (partChunk ++ [ch]) := by simp
      simp only [hassoc, readFromPNGloop,
        decode_markerFrame i i (partChunk ++ [ch]) st acc Decision.accept h]
      have := ih [] (i + 1) { st with finalOutputString := some (acc ++ (partChunk ++ [ch])) }
        (acc ++ (partChunk ++ [ch])) rfl
      rw [List.append_nil] at this
      rw [this]
      simp
    · rw [if_neg hfill]
      have hassoc : (mark i ++ partChunk) ++ [ch] = mark i ++ (partChunk ++ [ch]) := by simp
      rw [hassoc, ih (partChunk ++ [ch]) i st acc h]
      simp

theorem pngLoop_header (c : Nat) (b z : Bool) (N : List Char) (hN : '/' ∉ N) (rest : List Char) :
    ∀ partChunk : List Char, ∀ st : QrOut, ∀ acc : List Char,
      st.isBinaryFile = false → st.zipDecode = false → st.outFileName = none →
      st.finalOutputString = some acc →
      readFromPNGloop (splitLoop c rest (hdrChars b z N ++ (mark 0 ++ partChunk)) 0) st 0
        = some (QrOut.mk b (some N) (some (acc ++ (partChunk ++ rest))) (b && z)) := by
  induction rest with
  | nil =>
    intro partChunk st acc h1 h2 h3 h4
    have hne : ¬(hdrChars b z N ++ (mark 0 ++ partChunk) = []) := by
      simp [hdrChars]
    rw [splitLoop, if_neg hne]
    simp only [readFromPNGloop,
      decode_headerFrame b z N partChunk st acc Decision.accept hN h1 h2 h3 h4]
    simp
  | cons ch rest ih =>
    intro partChunk st acc h1 h2 h3 h4
    rw [splitLoop]
    by_cases hfill : ((hdrChars b z N ++ (mark 0 ++ partChunk)) ++ [ch]).length = c
    · rw [if_pos hfill]
      have hassoc : (hdrChars b z N ++ (mark 0 ++ partChunk)) ++ [ch]
          = hdrChars b z N ++ (mark 0 ++ (partChunk ++ [ch])) := by simp
      simp only [hassoc, readFromPNGloop,
        decode_headerFrame b z N (partChunk ++ [ch]) st acc Decision.accept hN h1 h2 h3 h4]
      have := pngLoop_splitLoop c rest [] 1
        (QrOut.mk b (some N) (some (acc ++ (partChunk ++ [ch]))) (b && z))
        (acc ++ (partChunk ++ [ch])) rfl
      rw [List.append_nil] at this
      rw [this]
      simp
    · rw [if_neg hfill]
      have hassoc : (hdrChars b z N ++ (mark 0 ++ partChunk)) ++ [ch]
          = hdrChars b z N ++ (mark 0 ++ (partChunk ++ [ch])) := by simp
      rw [hassoc, ih (partChunk ++ [ch]) st acc h1 h2 h3 h4]
      simp

/-! ### The general round trip -/

theorem b64e_ne_nil (bs : List Nat) (h : bs ≠ []) : b64e bs ≠ [] := by
  match bs with
  | [] => exact absurd rfl h
  | [a] => simp [b64e]
  | [a, b] => simp [b64e]
  | a :: b :: c :: rest => simp [b64e]

/-! ### Helper lemmas: the text-mode read model -/

theorem utf8Decode_cons (b : Nat) (rest : List Nat) :
    utf8Decode (b :: rest) =
      (if b < 128 then (utf8Decode rest).map (fun s => byteChar b :: s)
      else if b < 194 then none
      else if b < 224 then
        match rest with
        | b2 :: rest2 =>
          if utf8Cont b2 then
            (utf8Decode rest2).map (fun s => Char.ofNat ((b - 192) * 64 + (b2 - 128)) :: s)
          else none
        | [] => none
      else if b < 240 then
        match rest with
        | b2 :: b3 :: rest2 =>
          if utf8Cont b2 && utf8Cont b3 && !(decide (b = 224) && decide (b2 < 160))
              && !(decide (b = 237) && decide (160 ≤ b2)) then
            (utf8Decode rest2).map
              (fun s => Char.ofNat ((b - 224) * 4096 + (b2 - 128) * 64 + (b3 - 128)) :: s)
          else none
        | _ => none
      else if b < 245 then
        match rest with
        | b2 :: b3 :: b4 :: rest2 =>
          if utf8Cont b2 && utf8Cont b3 && utf8Cont b4 && !(decide (b = 240) && decide (b2 < 144))
              && !(decide (b = 244) && decide (144 ≤ b2)) then
            (utf8Decode rest2).map (fun s =>
              Char.ofNat ((b - 240) * 262144 + (b2 - 128) * 4096 + (b3 - 128) * 64 + (b4 - 128)) :: s)
          else none
        | _ => none
      else none) := by
  rcases rest with _ | ⟨b2, _ | ⟨b3, _ | ⟨b4, rest2⟩⟩⟩ <;> rfl

theorem utf8Decode_ascii : ∀ bs : List Nat, (∀ x ∈ bs, x ≤ 127) →
    utf8Decode bs = some (bs.map byteChar) := by
  intro bs
  induction bs with
  | nil => intro _; rfl
  | cons b rest ih =>
    intro h
    have hb : b ≤ 127 := h b (by simp)
    rw [utf8Decode_cons, if_pos (by omega : b < 128), ih (fun x hx => h x (by simp [hx]))]
    rfl

theorem utf8Decode_ff : ∀ bs : List Nat, 255 ∈ bs → utf8Decode bs = none := by
  intro bs
  induction bs using utf8Decode.induct with
  | case1 => intro h; simp at h
  | case2 b rest hlt ih =>
    intro h
    have h255 : 255 ∈ rest := by
      rcases List.mem_cons.mp h with h | h
      · omega
      · exact h
    rw [utf8Decode_cons, if_pos hlt, ih h255]
    rfl
  | case3 b rest h1 h2 =>
    intro _
    rw [utf8Decode_cons, if_neg h1, if_pos h2]
  | case4 b h1 h2 h3 b2 rest2 hc ih =>
    intro h
    have h255 : 255 ∈ rest2 := by
      rcases List.mem_cons.mp h with h | h
      · omega
      · rcases List.mem_cons.mp h with h | h
        · exfalso
          subst h
          simp [utf8Cont] at hc
        · exact h
    rw [utf8Decode_cons, if_neg h1, if_neg h2, if_pos h3]
    simp only [ih h255, Option.map_none', ite_self]
  | case5 b h1 h2 h3 b2 rest2 hc =>
    intro _
    rw [utf8Decode_cons, if_neg h1, if_neg h2, if_pos h3]
    simp only [if_neg hc]
  | case6 b h1 h2 h3 =>
    intro h
    exfalso
    rcases List.mem_cons.mp h with h | h
    · omega
    · simp at h
  | case7 b h1 h2 h3 h4 b2 b3 rest2 hc ih =>
    intro h
    simp only [utf8Cont, Bool.and_eq_true, decide_eq_true_eq] at hc
    have h255 : 255 ∈ rest2 := by
      rcases List.mem_cons.mp h with h | h
      · omega
      · rcases List.mem_cons.mp h with h | h
        · omega
        · rcases List.mem_cons.mp h with h | h
          · omega
          · exact h
    rw [utf8Decode_cons, if_neg h1, if_neg h2, if_neg h3, if_pos h4]
    simp only [ih h255, Option.map_none', ite_self]
  | case8 b h1 h2 h3 h4 b2 b3 rest2 hc =>
    intro _
    rw [utf8Decode_cons, if_neg h1, if_neg h2, if_neg h3, if_pos h4]
    simp only [if_neg hc]
  | case9 b rest h1 h2 h3 h4 hshape =>
    intro h
    rw [utf8Decode_cons, if_neg h1, if_neg h2, if_neg h3, if_pos h4]
    match rest, hshape with
    | [], _ => rfl
    | [x], _ => rfl
    | x :: y :: t, hs => exact (hs x y t rfl).elim
  | case10 b h1 h2 h3 h4 h5 b2 b3 b4 rest2 hc ih =>
    intro h
    simp only [utf8Cont, Bool.and_eq_true, decide_eq_true_eq] at hc
    have h255 : 255 ∈ rest2 := by
      rcases List.mem_cons.mp h with h | h
      · omega
      · rcases List.mem_cons.mp h with h | h
        · omega
        · rcases List.mem_cons.mp h with h | h
          · omega
          · rcases List.mem_cons.mp h with h | h
            · omega
            · exact h
    rw [utf8Decode_cons, if_neg h1, if_neg h2, if_neg h3, if_neg h4, if_pos h5]
    simp only [ih h255, Option.map_none', ite_self]
  | case11 b h1 h2 h3 h4 h5 b2 b3 b4 rest2 hc =>
    intro _
    rw [utf8Decode_cons, if_neg h1, if_neg h2, if_neg h3, if_neg h4, if_pos h5]
    simp only [if_neg hc]
  | case12 b rest h1 h2 h3 h4 h5 hshape =>
    intro h
    rw [utf8Decode_cons, if_neg h1, if_neg h2, if_neg h3, if_neg h4, if_pos h5]
    match rest, hshape with
    | [], _ => rfl
    | [x], _ => rfl
    | [x, y], _ => rfl
    | x :: y :: z :: t, hs => exact (hs x y z t rfl).elim
  | case13 b rest h1 h2 h3 h4 h5 =>
    intro _
    rw [utf8Decode_cons, if_neg h1, if_neg h2, if_neg h3, if_neg h4, if_neg h5]

theorem univNewlines_id : ∀ s : List Char, (∀ c ∈ s, ¬ c = '\r') → univNewlines s = s := by
  intro s
  induction s using univNewlines.induct with
  | case1 => intro _; rfl
  | case2 =>
    intro h
    exact absurd rfl (h '\r' (by simp))
  | case3 c hc =>
    intro _
    simp [univNewlines, hc]
  | case4 rest ih =>
    intro h
    exact absurd rfl (h '\r' (by simp))
  | case5 c2 rest hc2 ih =>
    intro h
    exact absurd rfl (h '\r' (by simp))
  | case6 c c2 rest hc ih =>
    intro h
    rw [univNewlines, if_neg hc, ih (fun x hx => h x (by simp [hx]))]

theorem univNewlines_ascii : ∀ s : List Char, (∀ c ∈ s, c.toNat ≤ 127) →
    ∀ c ∈ univNewlines s, c.toNat ≤ 127 := by
  intro s
  induction s using univNewlines.induct with
  | case1 =>
    intro _ c hc
    rw [show univNewlines [] = [] from rfl] at hc
    simp at hc
  | case2 =>
    intro _ c hc
    rw [show univNewlines ['\r'] = ['\n'] from rfl] at hc
    simp at hc
    subst hc
    decide
  | case3 c0 hc0 =>
    intro h c hc
    rw [show univNewlines [c0] = if c0 = '\r' then ['\n'] else [c0] from rfl, if_neg hc0] at hc
    simp at hc
    subst hc
    exact h c (by simp)
  | case4 rest ih =>
    intro h c hc
    rw [show univNewlines ('\r' :: '\n' :: rest) = '\n' :: univNewlines rest from rfl] at hc
    rcases List.mem_cons.mp hc with hc | hc
    · subst hc; decide
    · exact ih (fun x hx => h x (by simp [hx])) c hc
  | case5 c2 rest hc2 ih =>
    intro h c hc
    rw [show univNewlines ('\r' :: c2 :: rest) = '\n' :: univNewlines (c2 :: rest) from by
      rw [univNewlines]
      simp [hc2]] at hc
    rcases List.mem_cons.mp hc with hc | hc
    · subst hc; decide
    · exact ih (fun x hx => h x (by simp [hx])) c hc
  | case6 c0 c2 rest hc0 ih =>
    intro h c hc
    rw [show univNewlines (c0 :: c2 :: rest) = c0 :: univNewlines (c2 :: rest) from by
      rw [univNewlines, if_neg hc0]] at hc
    rcases List.mem_cons.mp hc with hc | hc
    · rw [hc]
      exact h c0 (by simp)
    · exact ih (fun x hx => h x (by simp [hx])) c hc

theorem isAscii_map_byteChar (bs : List Nat) (h : ∀ x ∈ bs, x ≤ 127) :
    isAscii (bs.map byteChar) = true := by
  rw [isAscii, List.all_eq_true]
  intro ch hch
  obtain ⟨x, hx, hxe⟩ := List.mem_map.mp hch
  subst hxe
  rw [byteChar_toNat x (by have := h x hx; omega)]
  simp [h x hx]

theorem map_toNat_byteChar (bs : List Nat) (h : ∀ x ∈ bs, x < 256) :
    (bs.map byteChar).map Char.toNat = bs := by
  rw [List.map_map]
  have h1 : bs.map (Char.toNat ∘ byteChar) = bs.map id :=
    List.map_congr_left (fun x hx => byteChar_toNat x (h x hx))
  rw [h1, List.map_id]

theorem byteChar_ne_cr (x : Nat) (hx : x < 256) (h13 : ¬ x = 13) :
    ¬ byteChar x = '\r' := by
  intro he
  apply h13
  have h1 := byteChar_toNat x hx
  rw [he] at h1
  rw [← h1]
  rfl

theorem textRead_ascii_noCR (bs : List Nat) (hascii : ∀ x ∈ bs, x ≤ 127)
    (hcr : 13 ∉ bs) : textRead bs = some (bs.map byteChar) := by
  rw [textRead, utf8Decode_ascii bs hascii]
  simp only [Option.map_some']
  rw [univNewlines_id]
  intro c hc
  obtain ⟨x, hx, hxe⟩ := List.mem_map.mp hc
  subst hxe
  exact byteChar_ne_cr x (by have := hascii x hx; omega) (fun he => hcr (he ▸ hx))

/-! ### Helper lemmas: shape of a successful encoding -/

theorem getAndSplitFile_eq (heur z : Bool) (content : List Nat) (chunk : Nat)
    (N : List Char) (frames : List (List Char)) (isBin : Bool) (stream : List Char)
    (henc : getAndSplitFile heur z content chunk N = some frames)
    (hcl : classifyBinary heur content = some isBin)
    (hstream : encStream heur content = some stream) :
    stream ≠ [] ∧ frames = splitLoop chunk stream (hdrChars isBin z N ++ mark 0) 0 := by
  cases heur with
  | true =>
    rw [classifyBinary, if_pos rfl] at hcl
    injection hcl with hcl
    rw [encStream, if_pos rfl] at hstream
    injection hstream with hstream
    rw [getAndSplitFile, if_pos rfl, buildFrames] at henc
    by_cases hbe : b64e content = []
    · rw [if_pos hbe] at henc
      cases henc
    · rw [if_neg hbe] at henc
      injection henc with henc
      subst hcl
      subst hstream
      exact ⟨hbe, henc.symm⟩
  | false =>
    rw [classifyBinary, if_neg (by simp)] at hcl
    rw [encStream, if_neg (by simp)] at hstream
    cases htr : textRead content with
    | none =>
      rw [htr] at hcl
      simp at hcl
    | some s =>
      rw [htr] at hcl hstream
      simp only [Option.map_some'] at hcl hstream
      injection hcl with hcl
      injection hstream with hstream
      simp only [getAndSplitFile, if_neg (by simp : ¬ (false = true)), htr] at henc
      by_cases hia : isAscii s = true
      · rw [if_pos hia] at henc
        rw [hia] at hcl
        simp only [Bool.not_true] at hcl
        rw [if_pos hia] at hstream
        rw [buildFrames] at henc
        by_cases hse : s = []
        · rw [if_pos hse] at henc
          cases henc
        · rw [if_neg hse] at henc
          injection henc with henc
          subst hcl
          subst hstream
          exact ⟨hse, henc.symm⟩
      · rw [if_neg hia] at henc
        have hia' : isAscii s = false := by
          cases hi2 : isAscii s
          · rfl
          · exact absurd hi2 hia
        rw [hia'] at hcl
        simp only [Bool.not_false] at hcl
        rw [if_neg (by rw [hia']; exact Bool.false_ne_true)] at hstream
        rw [buildFrames] at henc
        by_cases hbe : b64e content = []
        · rw [if_pos hbe] at henc
          cases henc
        · rw [if_neg hbe] at henc
          injection henc with henc
          subst hcl
          subst hstream
          exact ⟨hbe, henc.symm⟩

/-! ### The general round trip through the enumerated decode path -/

theorem buildFrames_roundTrip (isBin : Bool) (stream : List Char) (N : List Char)
    (c : Nat) (hsne : stream ≠ []) (hN : '/' ∉ N) :
    ∃ frames, buildFrames isBin false stream c N = some frames ∧
      readFromPNG frames none
        = writeOutputFile (QrOut.mk isBin (some N) (some stream) false) := by
  refine ⟨splitLoop c stream (hdrChars isBin false N ++ mark 0) 0, ?_, ?_⟩
  · rw [buildFrames, if_neg hsne]
  · have hfne : splitLoop c stream (hdrChars isBin false N ++ mark 0) 0 ≠ [] :=
      splitLoop_ne_nil c stream _ 0 (by simp [hdrChars])
    obtain ⟨g, gs, hg⟩ := List.exists_cons_of_ne_nil hfne
    have hbuf : hdrChars isBin false N ++ mark 0
        = hdrChars isBin false N ++ (mark 0 ++ []) := by simp
    have hloop := pngLoop_header c isBin false N hN stream []
      (QrOut.mk false none (some []) false) [] rfl rfl rfl rfl
    rw [hbuf] at hg
    have hloop2 : readFromPNGloop (g :: gs) (QrOut.mk false none (some []) false) 0
        = some (QrOut.mk isBin (some N) (some stream) false) := by
      rw [← hg, hloop]
      simp
    rw [hbuf, hg, readFromPNG, hloop2]

end QR

namespace QR

/-! ### Helper lemmas: frame lengths and frame shapes -/

theorem splitLoop_le (c : Nat) :
    ∀ rest buffer : List Char, ∀ i : Nat, buffer.length < c →
      (∀ k, i < k → k ≤ i + rest.length → (mark k).length < c) →
      ∀ f ∈ splitLoop c rest buffer i, f.length ≤ c := by
  intro rest
  induction rest with
  | nil =>
    intro buffer i hb _ f hf
    rw [splitLoop] at hf
    by_cases hbe : buffer = []
    · rw [if_pos hbe] at hf
      simp at hf
    · rw [if_neg hbe] at hf
      simp at hf
      subst hf
      omega
  | cons ch rest ih =>
    intro buffer i hb hm f hf
    rw [splitLoop] at hf
    by_cases hfill : (buffer ++ [ch]).length = c
    · rw [if_pos hfill] at hf
      rcases List.mem_cons.mp hf with hf | hf
      · subst hf
        omega
      · refine ih (mark (i + 1)) (i + 1) ?_ ?_ f hf
        · exact hm (i + 1) (by omega) (by simp only [List.length_cons]; omega)
        · intro k hk1 hk2
          exact hm k (by omega) (by simp only [List.length_cons] at hk2 ⊢; omega)
    · rw [if_neg hfill] at hf
      refine ih (buffer ++ [ch]) i ?_ ?_ f hf
      · have : (buffer ++ [ch]).length = buffer.length + 1 := by simp
        omega
      · intro k hk1 hk2
        exact hm k (by omega) (by simp only [List.length_cons] at hk2 ⊢; omega)

theorem splitLoop_shape (c : Nat) :
    ∀ rest buffer : List Char, ∀ i : Nat, buffer ≠ [] →
      (∃ t, (splitLoop c rest buffer i)[0]? = some (buffer ++ t)) ∧
      (∀ j f, 0 < j → (splitLoop c rest buffer i)[j]? = some f →
        ∃ t, f = mark (i + j) ++ t) := by
  intro rest
  induction rest with
  | nil =>
    intro buffer i hb
    rw [splitLoop, if_neg hb]
    constructor
    · exact ⟨[], by simp⟩
    · intro j f hj hf
      cases j with
      | zero => omega
      | succ j => simp at hf
  | cons ch rest ih =>
    intro buffer i hb
    rw [splitLoop]
    by_cases hfill : (buffer ++ [ch]).length = c
    · rw [if_pos hfill]
      obtain ⟨hhead, hmarks⟩ := ih (mark (i + 1)) (i + 1) (mark_ne_nil (i + 1))
      constructor
      · exact ⟨[ch], by simp⟩
      · intro j f hj hf
        cases j with
        | zero => omega
        | succ j =>
          rw [List.getElem?_cons_succ] at hf
          cases j with
          | zero =>
            obtain ⟨t, ht0⟩ := hhead
            rw [ht0] at hf
            refine ⟨t, ?_⟩
            have hinj : f = mark (i + 1) ++ t := by
              injection hf with h
              exact h.symm
            rw [hinj]
          | succ j =>
            obtain ⟨t, ht0⟩ := hmarks (j + 1) f (by omega) hf
            refine ⟨t, ?_⟩
            have harith : i + 1 + (j + 1) = i + (j + 1 + 1) := by omega
            rw [← harith]
            exact ht0
    · rw [if_neg hfill]
      obtain ⟨hhead, hmarks⟩ := ih (buffer ++ [ch]) i (by simp)
      constructor
      · obtain ⟨t, ht0⟩ := hhead
        exact ⟨ch :: t, by rw [ht0]; simp⟩
      · exact hmarks

/-! ### Claim C1 -/

/-- C1 (corrected: nonempty content; nonempty base filename; binary content
goes through the heuristic-binary path, and text-path content must be
CR-free 7-bit ASCII): decoding, in arrival order 0, 1, 2, …, the frames
produced by `getAndSplitFile` reconstructs exactly the original bytes and
filename, for each capacity in {106, 520, 1273, 2953} as resolved through
`validateUserInput` at any error-correction level. -/
theorem c1_roundTrip (heur : Bool) (content : List Nat) (N : List Char)
    (cap : Nat) (level : ECLevel)
    (hne : content ≠ []) (hbytes : ∀ x ∈ content, x < 256)
    (hN : '/' ∉ N) (hN2 : N ≠ [])
    (_hcap : cap = 106 ∨ cap = 520 ∨ cap = 1273 ∨ cap = 2953)
    (hpath : heur = true ∨ ((∀ x ∈ content, x ≤ 127) ∧ 13 ∉ content)) :
    encodeDecode heur content N (validateUserInput level cap) = some (content, N) := by
  cases heur with
  | true =>
    obtain ⟨frames, hf, hdec⟩ := buildFrames_roundTrip true (b64e content) N
      (validateUserInput level cap) (b64e_ne_nil content hne) hN
    have hg : getAndSplitFile true false content (validateUserInput level cap) N
        = some frames := by
      rw [getAndSplitFile, if_pos rfl]
      exact hf
    simp only [encodeDecode, hg]
    rw [hdec, writeOutputFile]
    simp [b64_roundtrip content hbytes, hN2]
  | false =>
    rcases hpath with hh | ⟨hascii, hcr⟩
    · exact absurd hh (by simp)
    · have htr := textRead_ascii_noCR content hascii hcr
      have hia := isAscii_map_byteChar content hascii
      have hmne : content.map byteChar ≠ [] := by simp [hne]
      obtain ⟨frames, hf, hdec⟩ := buildFrames_roundTrip false (content.map byteChar) N
        (validateUserInput level cap) hmne hN
      have hg : getAndSplitFile false false content (validateUserInput level cap) N
          = some frames := by
        simp only [getAndSplitFile, if_neg (by simp : ¬ (false = true)), htr]
        rw [if_pos hia]
        exact hf
      simp only [encodeDecode, hg]
      rw [hdec, writeOutputFile]
      simp [map_toNat_byteChar content hbytes, hN2]

/-- C1 witness: the round trip evaluated on concrete text and binary inputs. -/
theorem c1_roundTrip_witness :
    encodeDecode false [104, 105] "a.txt".data (validateUserInput ECLevel.L 106)
        = some ([104, 105], "a.txt".data) ∧
    encodeDecode true [0, 255, 7] "b.bin".data (validateUserInput ECLevel.H 2953)
        = some ([0, 255, 7], "b.bin".data) :=
  ⟨c1_roundTrip false [104, 105] "a.txt".data 106 ECLevel.L (by decide) (by decide)
      (by decide) (by decide) (Or.inl rfl) (Or.inr ⟨by decide, by decide⟩),
    c1_roundTrip true [0, 255, 7] "b.bin".data 2953 ECLevel.H (by decide) (by decide)
      (by decide) (by decide) (Or.inr (Or.inr (Or.inr rfl))) (Or.inl rfl)⟩

/-- C1 counterexample: text-mode reading performs universal-newline
translation, so CR-containing text content does not round-trip — encoding
the bytes of "a\r\nb" and decoding the frames in order returns the bytes of
"a\nb" — and for empty content the encoder crashes outright (`fullFile[0]`
raises `IndexError`), so the claim fails as stated for every content. -/
theorem c1_counterexample :
    encodeDecode false [97, 13, 10, 98] "a.txt".data 106
        = some ([97, 10, 98], "a.txt".data) ∧
    ([97, 10, 98] : List Nat) ≠ [97, 13, 10, 98] ∧
    getAndSplitFile false false [] 106 "a.txt".data = none := by
  refine ⟨?_, ?_, ?_⟩ <;> decide

/-! ### Claim C2 -/

/-- C2 (corrected): every emitted frame is bounded by the capacity provided
the frame-0 prefix (header plus `'::c0::'` marker) is strictly shorter than
the capacity and every index marker that can arise is strictly shorter than
the capacity. -/
theorem c2_frameLength (heur z : Bool) (content : List Nat) (chunk : Nat)
    (N : List Char) (frames : List (List Char)) (isBin : Bool) (stream : List Char)
    (henc : getAndSplitFile heur z content chunk N = some frames)
    (hcl : classifyBinary heur content = some isBin)
    (hstream : encStream heur content = some stream)
    (hhdr : (hdrChars isBin z N).length + 6 < chunk)
    (hmk : ∀ k, k ≤ stream.length → (mark k).length < chunk) :
    ∀ f ∈ frames, f.length ≤ chunk := by
  obtain ⟨hsne, hframes⟩ :=
    getAndSplitFile_eq heur z content chunk N frames isBin stream henc hcl hstream
  rw [hframes]
  refine splitLoop_le chunk stream _ 0 ?_ ?_
  · have hm0 : (mark 0).length = 6 := rfl
    simp [hm0]
    omega
  · intro k _ hk2
    exact hmk k (by omega)

/-- C2 counterexample: at capacity 106 with a 100-character basename the
single emitted frame has length 118 > 106 (the buffer already exceeds the
capacity before slicing starts, so the equality test never fires). -/
theorem c2_counterexample :
    (getAndSplitFile false false [120] 106 (List.replicate 100 'a')).map
        (fun fs => fs.map List.length) = some [118] ∧ 106 < 118 := by
  constructor
  · decide
  · decide

/-- C2 witness: the amended bound applied at capacity 106 to a short name
produces a frame within the capacity. -/
theorem c2_frameLength_witness :
    ("::f::".data ++ "a.txt".data ++ "::/f::".data ++ mark 0 ++
        [byteChar 104, byteChar 105]).length ≤ 106 := by
  refine c2_frameLength false false [104, 105] 106 "a.txt".data
    ["::f::".data ++ "a.txt".data ++ "::/f::".data ++ mark 0 ++ [byteChar 104, byteChar 105]]
    false ([104, 105].map byteChar) ?_ ?_ ?_ ?_ ?_ _ (List.mem_singleton.mpr rfl)
  · decide
  · decide
  · decide
  · decide
  · intro k hk
    have hk2 : k ≤ 2 := by
      have hlen : (([104, 105].map byteChar) : List Char).length = 2 := by decide
      omega
    interval_cases k <;> decide

/-! ### Claim C9 -/

/-- C9 (confirmed): the emitted frame sequence is nonempty, frame 0 begins
with the header followed by the `'::c0::'` marker, and every later frame at
emission position `j` begins with the marker `'::c' + str(j) + '::'` — the
declared indices are exactly 0, 1, 2, … in emission order with no gaps or
repeats. -/
theorem c9_markerIndices (heur z : Bool) (content : List Nat) (chunk : Nat)
    (N : List Char) (frames : List (List Char)) (isBin : Bool) (stream : List Char)
    (henc : getAndSplitFile heur z content chunk N = some frames)
    (hcl : classifyBinary heur content = some isBin)
    (hstream : encStream heur content = some stream) :
    frames ≠ [] ∧
    (∃ t, frames[0]? = some (hdrChars isBin z N ++ (mark 0 ++ t))) ∧
    (∀ j f, 0 < j → frames[j]? = some f → ∃ t, f = mark j ++ t) := by
  obtain ⟨hsne, hframes⟩ :=
    getAndSplitFile_eq heur z content chunk N frames isBin stream henc hcl hstream
  obtain ⟨hhead, hmarks⟩ :=
    splitLoop_shape chunk stream (hdrChars isBin z N ++ mark 0) 0 (by simp [hdrChars])
  refine ⟨?_, ?_, ?_⟩
  · rw [hframes]
    exact splitLoop_ne_nil chunk stream _ 0 (by simp [hdrChars])
  · obtain ⟨t, ht0⟩ := hhead
    refine ⟨t, ?_⟩
    rw [hframes, ht0]
    simp
  · intro j f hj hf
    rw [hframes] at hf
    obtain ⟨t, ht0⟩ := hmarks j f hj hf
    rw [Nat.zero_add] at ht0
    exact ⟨t, ht0⟩

/-- C9 witness: the theorem applied to a concrete two-frame encoding. -/
theorem c9_markerIndices_witness :
    (getAndSplitFile false false [104, 105] 24 "a.txt".data
        = some ["::f::".data ++ "a.txt".data ++ "::/f::".data ++ mark 0 ++
            [byteChar 104, byteChar 105], mark 1]) ∧
    (["::f::".data ++ "a.txt".data ++ "::/f::".data ++ mark 0 ++
        [byteChar 104, byteChar 105], mark 1] ≠ ([] : List (List Char))) := by
  constructor
  · decide
  · have h := c9_markerIndices false false [104, 105] 24 "a.txt".data
      ["::f::".data ++ "a.txt".data ++ "::/f::".data ++ mark 0 ++
          [byteChar 104, byteChar 105], mark 1]
      false ([104, 105].map byteChar) (by decide) (by decide) (by decide)
    exact h.1

/-! ### Claim C10 -/

/-- C10 (confirmed): when the transformed stream runs out exactly as the
buffer reaches the capacity boundary, the encoder emits one additional
frame that is exactly the next index marker `'::cN::'` with empty payload,
and decoding that marker-only frame at its arrival position leaves the
reassembly state unchanged. -/
theorem c10_boundaryMarkerFrame (cSize i : Nat) (partChunk : List Char) (ch : Char)
    (st : QrOut) (acc : List Char) (d : Decision)
    (hlen : ((mark i ++ partChunk) ++ [ch]).length = cSize)
    (hfos : st.finalOutputString = some acc) :
    splitLoop cSize [ch] (mark i ++ partChunk) i
      = [(mark i ++ partChunk) ++ [ch], mark (i + 1)] ∧
    decodeQRandAppend (mark (i + 1)) st (i + 1) false d = some st := by
  obtain ⟨b0, f0, s0, z0⟩ := st
  simp only at hfos
  subst hfos
  constructor
  · rw [splitLoop, if_pos hlen, splitLoop, if_neg (mark_ne_nil (i + 1))]
  · have hthis := decode_markerFrame (i + 1) (i + 1) [] (QrOut.mk b0 f0 (some acc) z0) acc d rfl
    rw [List.append_nil, List.append_nil] at hthis
    exact hthis

/-- C10 witness: capacity 8 is reached exactly at the last stream character,
producing the marker-only trailing frame `'::c1::'`. -/
theorem c10_boundaryMarkerFrame_witness :
    splitLoop 8 ['y'] (mark 0 ++ ['x']) 0 = [(mark 0 ++ ['x']) ++ ['y'], mark 1] ∧
    decodeQRandAppend (mark 1) (QrOut.mk false none (some ['A', 'B']) false) 1 false
        Decision.accept = some (QrOut.mk false none (some ['A', 'B']) false) :=
  c10_boundaryMarkerFrame 8 0 ['x'] 'y' (QrOut.mk false none (some ['A', 'B']) false)
    ['A', 'B'] Decision.accept (by decide) rfl

end QR

namespace QR

/-! ### Claim C3 -/

/-- C3 (confirmed): capacity resolution is `min(requested, ceiling(level))`
with ceilings L → 2953, M → 2331, H → 1273; in particular a request of 5000
resolves to 1273 at H, 2331 at M and 2953 at L. -/
theorem c3_capacityResolution :
    (∀ level : ECLevel, ∀ cap : Nat,
        validateUserInput level cap = min cap (ceilingFor level)) ∧
    validateUserInput ECLevel.H 5000 = 1273 ∧
    validateUserInput ECLevel.M 5000 = 2331 ∧
    validateUserInput ECLevel.L 5000 = 2953 := by
  refine ⟨?_, rfl, rfl, rfl⟩
  intro level cap
  cases level <;> simp [validateUserInput, ceilingFor] <;> split_ifs <;> omega

/-! ### Claim C7 -/

set_option maxHeartbeats 1000000 in
/-- C7 (confirmed): `getVersionFromChunk` returns the smallest tier on the
ladder whose scaled threshold is ≥ the capacity (tier 40 when none
qualifies), and is monotonically non-decreasing in the capacity for each
fixed level. -/
theorem c7_versionLadder :
    (∀ level : ECLevel, ∀ chunk : Nat,
        getVersionFromChunk level chunk = specVersionFromChunk level chunk) ∧
    (∀ level : ECLevel, ∀ c1 c2 : Nat, c1 ≤ c2 →
        getVersionFromChunk level c1 ≤ getVersionFromChunk level c2) := by
  constructor
  · intro level chunk
    rw [getVersionFromChunk, specVersionFromChunk, tierLadder]
    by_cases h1 : 20 * chunk ≤ 106 * modifier20 level
    · simp [List.find?, h1]
    · by_cases h2 : 20 * chunk ≤ 271 * modifier20 level
      · simp [List.find?, h1, h2]
      · by_cases h3 : 20 * chunk ≤ 520 * modifier20 level
        · simp [List.find?, h1, h2, h3]
        · by_cases h4 : 20 * chunk ≤ 858 * modifier20 level
          · simp [List.find?, h1, h2, h3, h4]
          · by_cases h5 : 20 * chunk ≤ 1273 * modifier20 level
            · simp [List.find?, h1, h2, h3, h4, h5]
            · by_cases h6 : 20 * chunk ≤ 1732 * modifier20 level
              · simp [List.find?, h1, h2, h3, h4, h5, h6]
              · by_cases h7 : 20 * chunk ≤ 2303 * modifier20 level
                · simp [List.find?, h1, h2, h3, h4, h5, h6, h7]
                · by_cases h8 : 20 * chunk ≤ 2953 * modifier20 level
                  · simp [List.find?, h1, h2, h3, h4, h5, h6, h7, h8]
                  · simp [List.find?, h1, h2, h3, h4, h5, h6, h7, h8]
  · intro level c1 c2 hle
    rw [getVersionFromChunk, getVersionFromChunk]
    split_ifs <;> omega

/-- C7 witness: the characterization and monotonicity at concrete inputs. -/
theorem c7_versionLadder_witness :
    getVersionFromChunk ECLevel.L 500 = specVersionFromChunk ECLevel.L 500 ∧
    getVersionFromChunk ECLevel.H 100 ≤ getVersionFromChunk ECLevel.H 2000 :=
  ⟨c7_versionLadder.1 ECLevel.L 500, c7_versionLadder.2 ECLevel.H 100 2000 (by decide)⟩

end QR

namespace QR

/-! ### Claim C8 -/

/-- C8 counterexample: content whose bytes are all ≤ 127 but include the
non-printable byte 127 (DEL, outside the printable-ASCII range 32–126) is
classified as text, because `isAscii` tests `ord(char) > 127`, not
printability — so "binary exactly when a byte is outside printable ASCII"
is false as stated. -/
theorem c8_counterexample :
    classifyBinary false [104, 105, 127] = some false ∧ ¬ isPrintableByte 127 := by
  constructor
  · decide
  · show ¬(32 ≤ 127 ∧ 127 ≤ 126)
    omega

/-- C8 (corrected): classification is decided by the external heuristic and
by `isAscii` (byte value > 127 on the decoded text), not by printability.
Content containing byte 0xFF is classified binary when the heuristic
reports binary; when the heuristic reports text the program crashes with an
uncaught `UnicodeDecodeError` (0xFF is never valid UTF-8) instead of
classifying. Pure 7-bit content with the heuristic reporting text is
classified text, and — when additionally CR-free — is framed directly with
no size inflation. When the text decode succeeds, the classification is
exactly `heuristic OR some decoded character exceeds 127`. -/
theorem c8_binaryClassification :
    (∀ bs : List Nat, 255 ∈ bs →
      classifyBinary true bs = some true ∧ classifyBinary false bs = none) ∧
    (∀ bs : List Nat, (∀ x ∈ bs, x ≤ 127) → classifyBinary false bs = some false) ∧
    (∀ bs : List Nat, (∀ x ∈ bs, x ≤ 127) → 13 ∉ bs →
      encStream false bs = some (bs.map byteChar)) ∧
    (∀ heurBinary : Bool, ∀ bs : List Nat, ∀ s : List Char, utf8Decode bs = some s →
      classifyBinary heurBinary bs = some (heurBinary || !isAscii (univNewlines s))) := by
  refine ⟨?_, ?_, ?_, ?_⟩
  · intro bs h255
    constructor
    · rw [classifyBinary, if_pos rfl]
    · rw [classifyBinary, if_neg (by simp), textRead, utf8Decode_ff bs h255]
      rfl
  · intro bs h
    rw [classifyBinary, if_neg (by simp), textRead, utf8Decode_ascii bs h]
    simp only [Option.map_some']
    have hasc : isAscii (univNewlines (bs.map byteChar)) = true := by
      rw [isAscii, List.all_eq_true]
      intro c hc
      have hmem : ∀ x ∈ bs.map byteChar, x.toNat ≤ 127 := by
        intro x hx
        obtain ⟨y, hy, hye⟩ := List.mem_map.mp hx
        subst hye
        rw [byteChar_toNat y (by have := h y hy; omega)]
        exact h y hy
      have := univNewlines_ascii (bs.map byteChar) hmem c hc
      simp [this]
    rw [hasc]
    simp
  · intro bs h hcr
    rw [encStream, if_neg (by simp), textRead_ascii_noCR bs h hcr]
    simp only [Option.map_some']
    rw [if_pos (isAscii_map_byteChar bs h)]
  · intro heurBinary bs s hdec
    cases heurBinary with
    | true =>
      rw [classifyBinary, if_pos rfl]
      simp
    | false =>
      rw [classifyBinary, if_neg (by simp), textRead, hdec]
      simp

/-- C8 witness: each clause of the classification theorem at concrete
inputs (the text clause at CRLF-containing 7-bit content). -/
theorem c8_binaryClassification_witness :
    classifyBinary true [255] = some true ∧
    classifyBinary false [255] = none ∧
    classifyBinary false [104, 105, 13, 10] = some false ∧
    encStream false [104, 105] = some ([104, 105].map byteChar) ∧
    classifyBinary false [104] = some (false || !isAscii (univNewlines [byteChar 104])) := by
  refine ⟨(c8_binaryClassification.1 [255] (by decide)).1,
    (c8_binaryClassification.1 [255] (by decide)).2,
    c8_binaryClassification.2.1 [104, 105, 13, 10] (by decide),
    c8_binaryClassification.2.2.1 [104, 105] (by decide) (by decide),
    c8_binaryClassification.2.2.2 false [104] [byteChar 104] ?_⟩
  decide

/-! ### Claim C4 -/

/-- C4 (code bug): in a camera session that has collected payload "AB",
rejecting the mismatched frame presented at arrival position 1 sets the
shared state's collected payload to `None` (the caller keeps the same
mutated object), and the subsequently accepted frame "::c1::CD" starts over
from the empty string — the session ends with payload "CD" instead of the
"ABCD" the specification's Reject semantics (payload unchanged, then
append) would give. -/
theorem c4_rejectLosesPayload :
    readFromCamera [("::c0::AB".data, Decision.accept), ("::c9::CD".data, Decision.reject),
        ("::c1::CD".data, Decision.accept)] none
      = some (QrOut.mk false none (some "CD".data) false) ∧
    "CD".data ≠ "ABCD".data := by
  constructor
  · decide
  · decide

/-! ### Claim C5 -/

/-- C5 counterexample: on the claim's literal frames the leading "::c0::"
of frame 0 is parsed as the count marker before any filename parsing can
happen, so the header block lands in the payload: accepting the mismatched
second frame yields payload "::f::a.txt::/f::::c0::ABCD", not "ABCD", and
no filename is extracted. -/
theorem c5_counterexample :
    readFromCamera [("::c0::::f::a.txt::/f::::c0::AB".data, Decision.accept),
        ("::c5::CD".data, Decision.accept)] none
      = some (QrOut.mk false none (some "::f::a.txt::/f::::c0::ABCD".data) false) ∧
    "::f::a.txt::/f::::c0::ABCD".data ≠ "ABCD".data := by
  constructor
  · decide
  · decide

/-- C5 (corrected): with the grammar-conformant frame 0
"::f::a.txt::/f::::c0::AB", the second frame "::c5::CD" at arrival position
1 carries declared index 5 ≠ 1 (the mismatch the decision point surfaces);
accepting it yields payload "ABCD", while rejecting it discards the
collected payload entirely (the state's payload becomes `None`, to be reset
to empty on the retry) rather than leaving "AB". -/
theorem c5_mismatchSession :
    (stageCount "::c5::CD".data = some (false, 5, "CD".data) ∧ (5 : Nat) ≠ 1) ∧
    readFromCamera [("::f::a.txt::/f::::c0::AB".data, Decision.accept),
        ("::c5::CD".data, Decision.accept)] none
      = some (QrOut.mk false (some "a.txt".data) (some "ABCD".data) false) ∧
    readFromCamera [("::f::a.txt::/f::::c0::AB".data, Decision.accept),
        ("::c5::CD".data, Decision.reject)] none
      = some (QrOut.mk false (some "a.txt".data) none false) := by
  refine ⟨⟨?_, ?_⟩, ?_, ?_⟩ <;> decide

/-! ### Claim C6 -/

/-- C6 counterexample: from an enumerated (PNG) source, the frame
"::c5::CD" arriving at filename-derived position 1 declares index 5, yet
the session raises no error and silently merges it: the collected payload
becomes "ABCD". -/
theorem c6_counterexample :
    readFromPNGloop ["::f::a.txt::/f::::c0::AB".data, "::c5::CD".data]
        (QrOut.mk false none (some []) false) 0
      = some (QrOut.mk false (some "a.txt".data) (some "ABCD".data) false) ∧
    (5 : Nat) ≠ 1 := by
  constructor
  · decide
  · decide

/-- C6 (corrected): when frames come from an enumerated source
(`fromCamera = false`), a frame whose declared index differs from its
arrival position is silently accepted and its payload merged exactly as a
matching frame would be — no hard decode error and no accept/reject
decision point. -/
theorem c6_silentMerge (cnt idx : Nat) (chunk : List Char) (st : QrOut)
    (acc : List Char) (d : Decision) (h : st.finalOutputString = some acc) :
    decodeQRandAppend (mark cnt ++ chunk) st idx false d
      = some { st with finalOutputString := some (acc ++ chunk) } :=
  decode_markerFrame cnt idx chunk st acc d h

/-- C6 witness: declared index 5 at arrival position 1, silently merged. -/
theorem c6_silentMerge_witness :
    decodeQRandAppend (mark 5 ++ "CD".data)
        (QrOut.mk false (some "a.txt".data) (some "AB".data) false) 1 false Decision.accept
      = some (QrOut.mk false (some "a.txt".data) (some ("AB".data ++ "CD".data)) false) :=
  c6_silentMerge 5 1 "CD".data (QrOut.mk false (some "a.txt".data) (some "AB".data) false)
    "AB".data Decision.accept rfl

end QR
